import Mathlib

/-!
Verification of the task synchronization and progression engine of the
Gemini Conductor Kanban application.

The definitions below are a shallow embedding of the TypeScript source:

* `types.ts` — `TaskStatus`, `LogEntry`, `Task`;
* `App.tsx` — the `addLog` helper, the `handleConnect` WebSocket wiring
  (including the values its callbacks close over), the simulation-loop
  `setTasks` updater (`tickUpdate`) and the post-await log application
  (`applyTaskLog`), and the interval step (`step`);
* `services/geminiService.ts` — the message dispatch of `connectToSocket`
  with its try/catch around `JSON.parse`.

React `useState` state is modelled as an explicit `AppState` record; every
handler becomes a pure state transformer.  JavaScript numbers holding task
progress are modelled as `Int` (all arithmetic involved is exact integer
arithmetic: `Math.floor(Math.random()*15)+5` is an integer in `[5,19]`,
`Math.min` and `+` stay integral).  Asynchronous callbacks are modelled by
passing the values they captured at creation time explicitly.
-/

namespace Conductor

/-- `TaskStatus` from `types.ts`. -/
inductive TaskStatus where
  | pending
  | in_progress
  | review
  | completed
deriving DecidableEq, Repr

/-- `LogEntry` from `types.ts`.  The severity union type is modelled as a
string, exactly the literals the source uses. -/
structure LogEntry where
  timestamp : Nat
  message : String
  logType : String
deriving DecidableEq, Repr

/-- `Task` from `types.ts`. -/
structure Task where
  id : String
  title : String
  description : String
  status : TaskStatus
  priority : String
  logs : List LogEntry
  progress : Int
  fileChanges : List String
deriving DecidableEq, Repr

/-- `addLog` from `App.tsx`:
`setGlobalLogs(prev => [...prev.slice(-99), entry])`.
`prev.slice(-99)` keeps the last `min 99 prev.length` entries, which is
`prev.drop (prev.length - 99)` (truncated subtraction). -/
def addLog (prev : List LogEntry) (entry : LogEntry) : List LogEntry :=
  prev.drop (prev.length - 99) ++ [entry]

theorem addLog_length_le (prev : List LogEntry) (entry : LogEntry)
    (h : prev.length ≤ 100) : (addLog prev entry).length ≤ 100 := by
  simp [addLog]
  omega

/-- Folding `addLog` from the empty buffer keeps exactly the last 100
appended entries. -/
theorem foldl_addLog_eq_drop (es : List LogEntry) :
    es.foldl addLog [] = es.drop (es.length - 100) := by
  induction es using List.reverseRecOn with
  | nil => simp
  | append_singleton es e ih =>
    rw [List.foldl_append, List.foldl_cons, List.foldl_nil, ih, addLog]
    rcases le_or_lt es.length 99 with h | h
    · have h1 : es.length - 100 = 0 := by omega
      have h3 : (es ++ [e]).length - 100 = 0 := by simp; omega
      rw [h1, h3]
      simp [Nat.sub_eq_zero_of_le h]
    · have hd : ((es.drop (es.length - 100)).length) = 100 := by
        rw [List.length_drop]; omega
      rw [hd]
      have h4 : (es ++ [e]).length - 100 = es.length - 100 + 1 := by simp; omega
      rw [h4, List.drop_drop, List.drop_append_of_le_length (by omega), Nat.add_comm]

/-- C6: the global log buffer (driven by `addLog`) holds at most 100 entries
after any sequence of appends starting from the empty buffer, and behaves as
a FIFO: after 101 appends of pairwise distinct entries to an initially empty
buffer, the first-appended entry is absent and the most recently appended
entry is present as the last element. -/
theorem global_log_bounded_fifo :
    (∀ es : List LogEntry, (es.foldl addLog []).length ≤ 100) ∧
    (∀ es : List LogEntry, es.length = 101 → es.Nodup →
      (∀ a, es.head? = some a → a ∉ es.foldl addLog []) ∧
      (es.foldl addLog []).getLast? = es.getLast?) := by
  constructor
  · intro es
    rw [foldl_addLog_eq_drop, List.length_drop]
    omega
  · intro es hlen hnd
    rw [foldl_addLog_eq_drop, hlen]
    rcases es with _ | ⟨a, _ | ⟨b, rest⟩⟩
    · simp at hlen
    · simp at hlen
    · constructor
      · intro x hx
        simp at hx
        subst hx
        have := (List.nodup_cons.mp hnd).1
        simpa using this
      · simp [List.getLast?_cons_cons]

/-- 101 pairwise distinct log entries, used to witness the FIFO behaviour of
the global log buffer. -/
def fifoEntries : List LogEntry :=
  (List.range 101).map (fun i => { timestamp := i, message := "entry", logType := "info" })

theorem global_log_bounded_fifo_witness :
    (fifoEntries.length = 101 ∧ fifoEntries.Nodup) ∧
    ((∀ a, fifoEntries.head? = some a → a ∉ fifoEntries.foldl addLog []) ∧
      (fifoEntries.foldl addLog []).getLast? = fifoEntries.getLast?) := by
  have h1 : fifoEntries.length = 101 := by simp [fifoEntries]
  have h2 : fifoEntries.Nodup := by
    apply List.Nodup.map
    · intro i j h
      simpa using congrArg LogEntry.timestamp h
    · exact List.nodup_range 101
  exact ⟨⟨h1, h2⟩, global_log_bounded_fifo.2 fifoEntries h1 h2⟩

/-- The `useState` hooks of the `App` component gathered into one record.
`socketCaptured` models `socketRef.current`: it is `none` when no socket is
attached, and `some b` when a socket is attached whose callbacks (created
inside `handleConnect`) closed over the value `b` that the state variable
`isRealtime` had in the render in which `handleConnect` ran.  Reads of
`isRealtime` inside those callbacks observe that captured value, not the
current state, because each render binds the hook value to a fresh
constant and the WebSocket handlers are assigned exactly once. -/
structure AppState where
  tasks : List Task
  isRunning : Bool
  isProcessing : Bool
  isRealtime : Bool
  activeTaskId : Option String
  globalLogs : List LogEntry
  goal : String
  connectionUrl : String
  socketCaptured : Option Bool
deriving DecidableEq, Repr

/-- The state part of `handleConnect` (App.tsx): set `isProcessing`, log the
handshake line, and attach a fresh socket whose callbacks capture the
current `isRealtime` value.  (The close-before-open behaviour on the
existing socket is modelled separately by `handleConnectSock`.) -/
def handleConnect (now : Nat) (s : AppState) : AppState :=
  { s with isProcessing := true,
           globalLogs := addLog s.globalLogs
             ⟨now, "Initiating handshake with conductor at " ++ s.connectionUrl ++ "...", "info"⟩,
           socketCaptured := some s.isRealtime }

/-- The `onOpen` callback passed to `connectToSocket` (App.tsx lines 92-98). -/
def onOpen (now : Nat) (s : AppState) : AppState :=
  { s with isProcessing := false, isRealtime := true, isRunning := true,
           globalLogs := addLog s.globalLogs
             ⟨now, "Successfully connected to live session at " ++ s.connectionUrl, "success"⟩ }

/-- The `onClose` callback passed to `connectToSocket` (App.tsx lines
99-106).  `captured` is the value of `isRealtime` that this callback closed
over when `handleConnect` created it; `code` is the close code of the
event. -/
def onClose (captured : Bool) (code : Nat) (now : Nat) (s : AppState) : AppState :=
  if captured then
    { s with globalLogs := addLog s.globalLogs
               ⟨now, "Connection closed by server (Code: " ++ toString code ++ ").", "warning"⟩,
             isRealtime := false, isRunning := false }
  else s

/-- A `{message, type}` log object of the feed protocol; `type` is optional
(`data.log.type || info`: a missing type defaults to info). -/
structure FeedLog where
  message : String
  logType : Option String
deriving DecidableEq, Repr

/-- A parsed feed payload: a JSON object with the four optional recognized
keys.  Unknown keys are ignored by the handler, so they are not modelled. -/
structure FeedData where
  tasks : Option (List Task)
  log : Option FeedLog
  logs : Option (List FeedLog)
  projectGoal : Option String
deriving DecidableEq, Repr

/-- The message callback passed to `connectToSocket` (App.tsx lines 62-79):
a full task list replaces the store and recomputes the active task; single
and batched log payloads are appended to the global log; a goal payload
updates the goal text. -/
def onMessage (now : Nat) (d : FeedData) (s : AppState) : AppState :=
  let s1 := match d.tasks with
    | some ts =>
        { s with tasks := ts,
                 activeTaskId :=
                   (ts.find? (fun t => decide (t.status = TaskStatus.in_progress))).map Task.id }
    | none => s
  let s2 := match d.log with
    | some l => { s1 with globalLogs := addLog s1.globalLogs ⟨now, l.message, l.logType.getD "info"⟩ }
    | none => s1
  let s3 := match d.logs with
    | some ls =>
        { s2 with globalLogs :=
            ls.foldl (fun acc l => addLog acc ⟨now, l.message, l.logType.getD "info"⟩) s2.globalLogs }
    | none => s2
  match d.projectGoal with
  | some g => { s3 with goal := g }
  | none => s3

/-- The `ws.onmessage` wrapper in `connectToSocket`
(geminiService.ts lines 121-128): `JSON.parse` is modelled by its result —
`none` is a parse failure, in which case the `catch` branch only writes to
the console and the message handler is never invoked. -/
def onMessageRaw (now : Nat) (parsed : Option FeedData) (s : AppState) : AppState :=
  match parsed with
  | none => s
  | some d => onMessage now d s

/-- C9: an inbound feed message whose payload fails to parse
(`parsed = none`) or parses to an object with none of the recognized keys
leaves the entire application state unchanged — no task or goal state
changes, the attached socket is untouched (the connection is not closed),
and the handler is total (the adapter cannot crash). -/
theorem malformed_payload_dropped (now : Nat) (parsed : Option FeedData) (s : AppState)
    (h : parsed = none ∨
      ∃ d, parsed = some d ∧ d.tasks = none ∧ d.log = none ∧ d.logs = none ∧ d.projectGoal = none) :
    onMessageRaw now parsed s = s := by
  rcases h with h | ⟨d, hd, h1, h2, h3, h4⟩
  · subst h; rfl
  · subst hd
    simp [onMessageRaw, onMessage, h1, h2, h3, h4]

/-- A sample application state used to witness theorems about the message
and close handlers. -/
def sampleState : AppState :=
  { tasks := [], isRunning := false, isProcessing := false, isRealtime := false,
    activeTaskId := none, globalLogs := [], goal := "", connectionUrl := "ws://localhost:8080",
    socketCaptured := none }

theorem malformed_payload_dropped_witness :
    onMessageRaw 0 (some { tasks := none, log := none, logs := none, projectGoal := none })
      sampleState = sampleState :=
  malformed_payload_dropped 0
    (some { tasks := none, log := none, logs := none, projectGoal := none }) sampleState
    (Or.inr ⟨_, rfl, rfl, rfl, rfl, rfl⟩)

/-- Socket lifecycle model for the connection part of `handleConnect`
(App.tsx lines 54-58) together with `connectToSocket`
(geminiService.ts lines 112-132).  `openConns` lists the WebSocket
connections currently established or connecting, identified by creation
index; `current` models `socketRef.current`.  `close()` removes a
connection from the open set; `connectToSocket` creates a fresh one. -/
structure SockWorld where
  openConns : List Nat
  nextId : Nat
  current : Option Nat
deriving DecidableEq, Repr

/-- The socket world before any connection attempt. -/
def initialSockWorld : SockWorld := { openConns := [], nextId := 0, current := none }

/-- The connection effect of `handleConnect`: if `socketRef.current` is
set, `close()` it and null the ref; then create a new socket via
`connectToSocket` and store it in the ref. -/
def handleConnectSock (w : SockWorld) : SockWorld :=
  let w1 := match w.current with
    | some c => { w with openConns := w.openConns.erase c, current := none }
    | none => w
  { openConns := w1.openConns ++ [w1.nextId], nextId := w1.nextId + 1, current := some w1.nextId }

/-- `n` successive `open` calls. -/
def iterConnect : Nat → SockWorld → SockWorld
  | 0, w => w
  | n + 1, w => handleConnectSock (iterConnect n w)

/-- The connection invariant of the adapter: either no socket is attached
and nothing is open, or exactly the attached socket is open. -/
def SockInv (w : SockWorld) : Prop :=
  (w.current = none ∧ w.openConns = []) ∨ ∃ c, w.current = some c ∧ w.openConns = [c]

theorem handleConnectSock_inv (w : SockWorld) (h : SockInv w) :
    SockInv (handleConnectSock w) := by
  rcases h with ⟨h1, h2⟩ | ⟨c, h1, h2⟩ <;>
    · refine Or.inr ⟨_, rfl, ?_⟩
      simp [handleConnectSock, h1, h2]

theorem iterConnect_inv (n : Nat) : SockInv (iterConnect n initialSockWorld) := by
  induction n with
  | zero => exact Or.inl ⟨rfl, rfl⟩
  | succ n ih => exact handleConnectSock_inv _ ih

/-- C8: calling `open` while a connection is already open first closes the
existing connection before establishing the new one: after any sequence of
`open` calls at most one connection is active, and after two `open` calls
in succession the first connection (id 0) has been closed and exactly the
second (id 1) is active and attached. -/
theorem open_twice_single_active_connection :
    (∀ n : Nat, ((iterConnect n initialSockWorld).openConns).length ≤ 1) ∧
    ((iterConnect 2 initialSockWorld).openConns = [1] ∧
      0 ∉ (iterConnect 2 initialSockWorld).openConns ∧
      (iterConnect 2 initialSockWorld).current = some 1) := by
  refine ⟨fun n => ?_, by decide⟩
  rcases iterConnect_inv n with ⟨_, h⟩ | ⟨c, _, h⟩ <;> simp [h]

/-- The first task of the close-scenario feed snapshot. -/
def feedTaskA : Task :=
  { id := "fa", title := "API Routes", description := "", status := TaskStatus.in_progress,
    priority := "high", logs := [], progress := 42, fileChanges := [] }

/-- The second task of the close-scenario feed snapshot. -/
def feedTaskB : Task :=
  { id := "fb", title := "Frontend", description := "", status := TaskStatus.pending,
    priority := "medium", logs := [], progress := 0, fileChanges := [] }

/-- The C2 scenario, exactly as the interface sequences it: from the idle
initial state, `handleConnect` attaches a socket (whose callbacks capture
`isRealtime = false`), the connection opens, the feed delivers a two-task
snapshot with one task in progress, and then the connection closes with
code 1006, dispatching to the close callback of the attached socket. -/
def liveCloseScenario : AppState :=
  let s1 := handleConnect 0 sampleState
  let s2 := onOpen 1 s1
  let s3 := onMessageRaw 2
    (some { tasks := some [feedTaskA, feedTaskB], log := none, logs := none, projectGoal := none }) s2
  match s3.socketCaptured with
  | some captured => onClose captured 1006 3 s3
  | none => s3

/-- C2 fails on the code: in the canonical live-close scenario the close
callback tests the `isRealtime` value it captured when `handleConnect` ran
(`false`), not the current value (`true`), so after the feed closes with
code 1006 no warning log at all is appended (in particular none containing
"1006") and the mode stays live: `isRealtime` and `isRunning` remain set
instead of transitioning to idle. -/
theorem close_in_live_mode_no_warning :
    (liveCloseScenario.globalLogs.filter (fun e => e.logType == "warning")).length = 0 ∧
    liveCloseScenario.isRealtime = true ∧ liveCloseScenario.isRunning = true := by
  decide

/-- JavaScript `Array.prototype.findIndex`, as an `Option`-valued index
(the source compares the result against `-1`; `none` plays that role). -/
def findIndex {α : Type} (p : α → Bool) : List α → Option Nat
  | [] => none
  | a :: as => if p a then some 0 else (findIndex p as).map (· + 1)

/-- The status tests the source performs with `===`. -/
def inProgressP : Task → Bool := fun t => decide (t.status = TaskStatus.in_progress)

/-- Status test for `TaskStatus.PENDING`. -/
def pendingP : Task → Bool := fun t => decide (t.status = TaskStatus.pending)

/-- Status test for `TaskStatus.COMPLETED`. -/
def completedP : Task → Bool := fun t => decide (t.status = TaskStatus.completed)

/-- The `setTasks` updater of the simulation tick (App.tsx lines 160-196),
together with the `setActiveTaskId`, `addLog` and deferred
`setIsRunning(false)` effects it performs.  `inc` stands for the value of
`Math.floor(Math.random() * 15) + 5`, an integer in `[5, 19]`.  The
deferred `setTimeout(() => setIsRunning(false), 0)` completes before the
next 2000 ms tick (and the effect re-run takes the early-return branch of
lines 148-151 first), so the model applies the stop in the same step. -/
def tickUpdate (inc : Int) (now : Nat) (s : AppState) : AppState :=
  match findIndex inProgressP s.tasks with
  | none =>
    match findIndex pendingP s.tasks with
    | some i =>
      match s.tasks[i]? with
      | some t =>
        { s with tasks := s.tasks.set i { t with status := TaskStatus.in_progress, progress := 5 },
                 activeTaskId := some t.id }
      | none => s
    | none =>
      if s.tasks.all completedP && s.isRunning then
        { s with isRunning := false, activeTaskId := none,
                 globalLogs := addLog s.globalLogs ⟨now, "All tasks completed successfully.", "success"⟩ }
      else s
  | some i =>
    match s.tasks[i]? with
    | some t =>
      let newProgress := min (t.progress + inc) 100
      let t1 := { t with progress := newProgress }
      let t2 := if 100 ≤ newProgress then { t1 with status := TaskStatus.completed } else t1
      { s with tasks := s.tasks.set i t2,
               activeTaskId := if 100 ≤ newProgress then none else s.activeTaskId }
    | none => s

/-- The log-generation part of the simulation tick (App.tsx lines 198-211),
which runs when `await generateTaskLog(...)` resolves.  `capturedTasks`
and `capturedActiveId` are the values of `tasks` and `activeTaskId` that
the interval callback closed over (the values at tick start); `msg` is the
message returned by the log-text provider (`generateTaskLog` returns
severity "info" on every path).  The functional `setTasks` update and the
`addLog` call are applied to the then-current state `s`; the source
performs no mode or generation check here. -/
def applyTaskLog (capturedTasks : List Task) (capturedActiveId : Option String)
    (msg : String) (now : Nat) (s : AppState) : AppState :=
  match capturedActiveId with
  | none => s
  | some tid =>
    match capturedTasks.find? (fun t => decide (t.id = tid)) with
    | none => s
    | some t =>
      if t.status = TaskStatus.in_progress then
        { s with
            tasks := s.tasks.map (fun u =>
              if u.id = tid then { u with logs := u.logs ++ [⟨now, msg, "info"⟩] } else u),
            globalLogs := addLog s.globalLogs ⟨now, "[" ++ t.title ++ "] " ++ msg, "info"⟩ }
      else s

/-- The body of the simulation effect (App.tsx lines 144-155 and 215-217),
which re-runs after every state commit because its dependency array
(line 220) includes `tasks`, `isRunning`, `isRealtime` and `activeTaskId`:
while `isRunning && !isRealtime`, a store that is entirely completed and
non-empty takes the early-return of lines 148-151, stopping the engine via
`setIsRunning(false)` with no log; otherwise the body installs the
interval and leaves the state unchanged.  When the engine is not running,
lines 215-217 clear the active-task pointer.  The engine-started log of
line 154 is appended on effect runs whose exact count depends on render
flush timing; its message differs from the all-done message counted by
every property here, so it is not repeated in this model (`initSim`
appends it once for the initial run). -/
def effectRun (s : AppState) : AppState :=
  if s.isRunning && !s.isRealtime then
    if s.tasks.all completedP && decide (0 < s.tasks.length) then
      { s with isRunning := false }
    else s
  else if !s.isRunning then
    { s with activeTaskId := none }
  else s

/-- One tick cycle of the simulation loop in a run without external
interference.  The interval exists at `s` exactly when the latest effect
body installed it: `isRunning && !isRealtime` (line 147) and the
early-return of lines 148-151 did not fire.  Within a cycle the `setTasks`
updater commits first and the effect re-runs on that commit (this is the
re-run that silently stops the engine once the last task completes); the
log-text request issued against the tick-start snapshot then resolves, is
applied, and the effect re-runs again on that commit (`processingRef`
serializes the callbacks; `effectRun` and `applyTaskLog` touch disjoint
state, so the relative order of the log application and the first effect
re-run does not affect the result). -/
def step (inc : Int) (msg : String) (now : Nat) (s : AppState) : AppState :=
  if s.isRunning && !s.isRealtime && !(s.tasks.all completedP && decide (0 < s.tasks.length)) then
    effectRun (applyTaskLog s.tasks s.activeTaskId msg now (effectRun (tickUpdate inc now s)))
  else s

/-- Apply the interval callbacks with tick indices `k, k+1, ..., k+n-1`;
the increment drawn and the provider message of tick `i` are `incs i` and
`msgs i`, and `i` also serves as the timestamp. -/
def stepsFrom (incs : Nat → Int) (msgs : Nat → String) (k : Nat) : Nat → AppState → AppState
  | 0, s => s
  | n + 1, s => stepsFrom incs msgs (k + 1) n (step (incs k) (msgs k) k s)

/-- Run the engine for `n` ticks from tick index 0. -/
def runSim (incs : Nat → Int) (msgs : Nat → String) (n : Nat) (s : AppState) : AppState :=
  stepsFrom incs msgs 0 n s

/-- Engine start on a freshly loaded task list (App.tsx `loadDemoMode`
lines 113-131 together with the initial effect run, which for a store
with a pending task takes the install branch and appends the started log
of line 154): the store is populated, the active pointer is recomputed
from the list, the realtime flag is cleared and the running flag set. -/
def initSim (ts : List Task) : AppState :=
  { tasks := ts, isRunning := true, isProcessing := false, isRealtime := false,
    activeTaskId := (ts.find? (fun t => decide (t.status = TaskStatus.in_progress))).map Task.id,
    globalLogs := addLog [] ⟨0, "Conductor simulation engine started.", "success"⟩,
    goal := "", connectionUrl := "ws://localhost:8080", socketCaptured := none }

/-- The message of the terminal log entry emitted by the all-done branch. -/
def allDoneMessage : String := "All tasks completed successfully."

/-- Number of all-done entries in a log buffer. -/
def countAllDone (logs : List LogEntry) : Nat :=
  logs.countP (fun e => e.message == allDoneMessage)

/-- A fresh pending task, as produced by plan ingestion. -/
def demoTask (i : String) : Task :=
  { id := i, title := "T" ++ i, description := "", status := TaskStatus.pending,
    priority := "high", logs := [], progress := 0, fileChanges := [] }

/-- Three pending tasks, the store of the fixed-increment scenario. -/
def threeTasks : List Task := [demoTask "a", demoTask "b", demoTask "c"]

/-- C7 fails on the code as stated: with the increment fixed at 20, the
promotion tick seeds progress 5, so task 1 reaches 100 on its fifth
progress tick, which is tick 6 overall (5, 25, 45, 65, 85, 100) — after
tick 5 it is still in progress at 85, and task 2 is still pending after
tick 6. -/
theorem three_tasks_tick5_not_completed :
    ¬ ((runSim (fun _ => 20) (fun _ => "Compiling module...") 5 (initSim threeTasks)).tasks[0]?.map
        Task.status = some TaskStatus.completed) ∧
    ¬ ((runSim (fun _ => 20) (fun _ => "Compiling module...") 6 (initSim threeTasks)).tasks[1]?.map
        Task.status = some TaskStatus.in_progress) := by
  decide

/-- C7 as amended: with the per-tick increment fixed at 20 and 3 pending
tasks, task 1 is still in progress after tick 5 and reaches completed
after tick 6, task 2 becomes in_progress at tick 7, and after at most 20
ticks (in fact after tick 18) all 3 tasks are completed and the engine is
stopped — but zero all-done log lines are present, not one: the effect
re-run on the completing commit takes the early-return of lines 148-151
and stops the engine silently, so the all-done emission of line 179 never
runs (the defect recorded under C3). -/
theorem three_tasks_fixed_increment_schedule :
    ((runSim (fun _ => 20) (fun _ => "Compiling module...") 5 (initSim threeTasks)).tasks[0]?.map
        Task.status = some TaskStatus.in_progress) ∧
    ((runSim (fun _ => 20) (fun _ => "Compiling module...") 6 (initSim threeTasks)).tasks[0]?.map
        Task.status = some TaskStatus.completed) ∧
    ((runSim (fun _ => 20) (fun _ => "Compiling module...") 7 (initSim threeTasks)).tasks[1]?.map
        Task.status = some TaskStatus.in_progress) ∧
    ((runSim (fun _ => 20) (fun _ => "Compiling module...") 18 (initSim threeTasks)).tasks.all
        (fun t => decide (t.status = TaskStatus.completed)) = true) ∧
    (runSim (fun _ => 20) (fun _ => "Compiling module...") 18 (initSim threeTasks)).isRunning = false ∧
    ((runSim (fun _ => 20) (fun _ => "Compiling module...") 20 (initSim threeTasks)).tasks.all
        (fun t => decide (t.status = TaskStatus.completed)) = true) ∧
    (runSim (fun _ => 20) (fun _ => "Compiling module...") 20 (initSim threeTasks)).isRunning = false ∧
    countAllDone (runSim (fun _ => 20) (fun _ => "Compiling module...") 20
        (initSim threeTasks)).globalLogs = 0 := by
  decide

/-- The task that is mid-execution in the C1 scenario. -/
def inflightTask : Task :=
  { id := "ta", title := "Build", description := "", status := TaskStatus.in_progress,
    priority := "high", logs := [], progress := 50, fileChanges := [] }

/-- The C1 interleaving, step by step: the engine is simulating with task
"ta" in progress; a tick fires and runs its synchronous updater, then
suspends awaiting `generateTaskLog`; during the await the user connects
and the socket opens, switching the session to live mode (the effect
re-run clears the interval, which stops future ticks but does not cancel
the suspended continuation); the log-text result then arrives and lines
203-209 apply it with no mode or generation check. -/
def lateResultScenario : AppState :=
  let s0 : AppState :=
    { tasks := [inflightTask], isRunning := true, isProcessing := false, isRealtime := false,
      activeTaskId := some "ta", globalLogs := [], goal := "",
      connectionUrl := "ws://localhost:8080", socketCaptured := none }
  let s1 := tickUpdate 10 0 s0
  let s2 := onOpen 1 (handleConnect 1 s1)
  applyTaskLog s0.tasks s0.activeTaskId "Running unit tests..." 2 s2

/-- C1 fails on the code: in the scenario above the late log-text result
arrives while the session mode is live, yet it is applied — the log
sequence of task "ta" grows from 0 entries to 1.  The source has no
generation token or mode check at the application site, so the late result
is not discarded. -/
theorem lateLogResult_mutates_after_live_switch :
    lateResultScenario.isRealtime = true ∧
    inflightTask.logs.length = 0 ∧
    (lateResultScenario.tasks.find? (fun t => decide (t.id = "ta"))).map
      (fun t => t.logs.length) = some 1 := by
  decide

theorem findIndex_some {α : Type} (p : α → Bool) :
    ∀ (l : List α) (i : Nat), findIndex p l = some i →
      ∃ h : i < l.length, p (l.get ⟨i, h⟩) = true := by
  intro l
  induction l with
  | nil => intro i h; simp [findIndex] at h
  | cons a as ih =>
    intro i h
    by_cases hpa : p a
    · simp [findIndex, hpa] at h
      subst h
      exact ⟨by simp, by simpa using hpa⟩
    · simp [findIndex, hpa] at h
      obtain ⟨j, hj, rfl⟩ := h
      obtain ⟨hlt, hp⟩ := ih j hj
      exact ⟨by simp [Nat.succ_lt_succ hlt], by simpa using hp⟩

theorem findIndex_none {α : Type} (p : α → Bool) :
    ∀ l : List α, findIndex p l = none → ∀ a ∈ l, p a = false := by
  intro l
  induction l with
  | nil => intro _ a ha; simp at ha
  | cons b bs ih =>
    intro h a ha
    by_cases hpb : p b
    · simp [findIndex, hpb] at h
    · simp [findIndex, hpb] at h
      rcases List.mem_cons.mp ha with rfl | ha2
      · simpa using hpb
      · exact ih h a ha2

theorem findIndex_none_of {α : Type} (p : α → Bool) :
    ∀ l : List α, (∀ a ∈ l, p a = false) → findIndex p l = none := by
  intro l
  induction l with
  | nil => intro _; rfl
  | cons b bs ih =>
    intro h
    have hb : p b = false := h b (by simp)
    simp [findIndex, hb]
    exact ih (fun a ha => h a (by simp [ha]))

theorem sum_map_set {α : Type} (f : α → Nat) :
    ∀ (l : List α) (i : Nat) (x : α) (h : i < l.length),
      ((l.set i x).map f).sum + f (l.get ⟨i, h⟩) = (l.map f).sum + f x := by
  intro l
  induction l with
  | nil => intro i x h; simp at h
  | cons a as ih =>
    intro i x h
    cases i with
    | zero => simp [List.set]; omega
    | succ n =>
      have hn : n < as.length := by simpa using h
      have := ih n x hn
      simp only [List.set, List.map_cons, List.sum_cons, List.get_cons_succ]
      omega

theorem countP_eq_sum_map {α : Type} (p : α → Bool) (l : List α) :
    l.countP p = (l.map (fun a => if p a then 1 else 0)).sum := by
  induction l with
  | nil => rfl
  | cons a as ih =>
    by_cases h : p a
    · simp [List.countP_cons, h, ih]
      omega
    · simp [List.countP_cons, h, ih]

theorem countP_drop_le {α : Type} (p : α → Bool) (l : List α) (k : Nat) :
    (l.drop k).countP p ≤ l.countP p := by
  conv_rhs => rw [← List.take_append_drop k l]
  rw [List.countP_append]
  omega

/-- A per-task log line, which is always prefixed with the bracketed task
title, can never collide with the terminal all-done message. -/
theorem bracket_message_ne (a b : String) :
    (("[" ++ a ++ "] " ++ b) == allDoneMessage) = false := by
  rw [beq_eq_false_iff_ne]
  intro h
  have h2 := congrArg String.data h
  simp [String.data_append, allDoneMessage] at h2

theorem countAllDone_addLog (logs : List LogEntry) (e : LogEntry) :
    countAllDone (addLog logs e) =
      (logs.drop (logs.length - 99)).countP (fun x => x.message == allDoneMessage) +
        (if e.message == allDoneMessage then 1 else 0) := by
  unfold countAllDone addLog
  rw [List.countP_append]
  by_cases h : e.message == allDoneMessage <;> simp [List.countP_cons, h]

theorem countAllDone_addLog_ne (logs : List LogEntry) (e : LogEntry)
    (h : countAllDone logs = 0) (hm : (e.message == allDoneMessage) = false) :
    countAllDone (addLog logs e) = 0 := by
  rw [countAllDone_addLog, hm]
  have hd := countP_drop_le (fun x => x.message == allDoneMessage) logs (logs.length - 99)
  unfold countAllDone at h
  simp only [Bool.false_eq_true, if_false]
  omega

theorem countAllDone_addLog_done (logs : List LogEntry) (now : Nat)
    (h : countAllDone logs = 0) :
    countAllDone (addLog logs ⟨now, allDoneMessage, "success"⟩) = 1 := by
  rw [countAllDone_addLog]
  have hd := countP_drop_le (fun x => x.message == allDoneMessage) logs (logs.length - 99)
  unfold countAllDone at h
  simp only [beq_self_eq_true, if_true]
  omega

/-- The task value the promotion branch writes back: status moves to
in_progress and progress is seeded at 5. -/
def promotedTask (t : Task) : Task :=
  { t with status := TaskStatus.in_progress, progress := 5 }

/-- The task value that the in-progress branch of the updater writes back:
progress is clamped to 100 and the task completes exactly when the clamp
is reached. -/
def progressUpdatedTask (inc : Int) (t : Task) : Task :=
  if 100 ≤ min (t.progress + inc) 100 then
    { t with progress := min (t.progress + inc) 100, status := TaskStatus.completed }
  else
    { t with progress := min (t.progress + inc) 100 }

theorem tickUpdate_progress_eq (inc : Int) (now : Nat) (s : AppState) (i : Nat) (t : Task)
    (hfi : findIndex inProgressP s.tasks = some i) (hget : s.tasks[i]? = some t) :
    tickUpdate inc now s =
      { s with tasks := s.tasks.set i (progressUpdatedTask inc t),
               activeTaskId :=
                 if 100 ≤ min (t.progress + inc) 100 then none else s.activeTaskId } := by
  simp only [tickUpdate, hfi, hget, progressUpdatedTask]

theorem tickUpdate_promote_eq (inc : Int) (now : Nat) (s : AppState) (i : Nat) (t : Task)
    (hfi : findIndex inProgressP s.tasks = none)
    (hfp : findIndex pendingP s.tasks = some i) (hget : s.tasks[i]? = some t) :
    tickUpdate inc now s =
      { s with tasks := s.tasks.set i (promotedTask t),
               activeTaskId := some t.id } := by
  simp only [tickUpdate, hfi, hfp, hget, promotedTask]

theorem tickUpdate_allDone_eq (inc : Int) (now : Nat) (s : AppState)
    (hfi : findIndex inProgressP s.tasks = none)
    (hfp : findIndex pendingP s.tasks = none)
    (hall : s.tasks.all completedP = true) (hrun : s.isRunning = true) :
    tickUpdate inc now s =
      { s with isRunning := false, activeTaskId := none,
               globalLogs := addLog s.globalLogs
                 ⟨now, "All tasks completed successfully.", "success"⟩ } := by
  simp only [tickUpdate, hfi, hfp, hall, hrun, Bool.and_true, if_true]

theorem tickUpdate_stuck_eq (inc : Int) (now : Nat) (s : AppState)
    (hfi : findIndex inProgressP s.tasks = none)
    (hfp : findIndex pendingP s.tasks = none)
    (hcond : (s.tasks.all completedP && s.isRunning) = false) :
    tickUpdate inc now s = s := by
  simp only [tickUpdate, hfi, hfp, hcond]
  rfl
theorem mem_map_eq_transfer {α β : Type} (f : α → β) {l l2 : List α}
    (h : l2.map f = l.map f) : ∀ t ∈ l2, ∃ u ∈ l, f t = f u := by
  intro t ht
  have hm : f t ∈ l2.map f := List.mem_map_of_mem f ht
  rw [h] at hm
  obtain ⟨u, hu, he⟩ := List.mem_map.mp hm
  exact ⟨u, hu, he.symm⟩

/-- The projection recording exactly the task fields the engine invariants
depend on. -/
def statusProgress (t : Task) : TaskStatus × Int := (t.status, t.progress)

theorem statusMap_of_pairMap {l l2 : List Task}
    (h : l2.map statusProgress = l.map statusProgress) :
    l2.map Task.status = l.map Task.status := by
  have h2 := congrArg (List.map Prod.fst) h
  simpa [List.map_map, Function.comp, statusProgress] using h2

/-- Core projection facts about the post-await log application: it can
touch only the `logs` field of tasks and the global log buffer — every
status, progress, control flag and the store size are unchanged. -/
theorem applyTaskLog_fields (ct : List Task) (ca : Option String) (msg : String) (now : Nat)
    (s : AppState) :
    (applyTaskLog ct ca msg now s).isRunning = s.isRunning ∧
    (applyTaskLog ct ca msg now s).isRealtime = s.isRealtime ∧
    (applyTaskLog ct ca msg now s).activeTaskId = s.activeTaskId ∧
    (applyTaskLog ct ca msg now s).tasks.map statusProgress = s.tasks.map statusProgress ∧
    (applyTaskLog ct ca msg now s).tasks.length = s.tasks.length := by
  unfold applyTaskLog
  split
  · exact ⟨rfl, rfl, rfl, rfl, rfl⟩
  next tid =>
    split
    · exact ⟨rfl, rfl, rfl, rfl, rfl⟩
    next t hfind =>
      split
      · refine ⟨rfl, rfl, rfl, ?_, by simp⟩
        simp only [List.map_map]
        apply List.map_congr_left
        intro u hu
        by_cases h : u.id = tid <;> simp [h, statusProgress]
      · exact ⟨rfl, rfl, rfl, rfl, rfl⟩

/-- The post-await log application cannot create an all-done log entry:
its global entry is prefixed with the bracketed task title. -/
theorem applyTaskLog_countAllDone (ct : List Task) (ca : Option String) (msg : String)
    (now : Nat) (s : AppState) (h : countAllDone s.globalLogs = 0) :
    countAllDone (applyTaskLog ct ca msg now s).globalLogs = 0 := by
  unfold applyTaskLog
  split
  · exact h
  · split
    · exact h
    · split
      · exact countAllDone_addLog_ne _ _ h (bracket_message_ne _ _)
      · exact h

/-- Weight of a task for the termination measure of a simulation run: a
pending task pays one promotion tick plus at most 19 progress ticks at the
minimum increment 5; an in-progress task with progress `p` pays one
completing tick plus the progress ticks still needed; completed and review
tasks pay nothing. -/
def pairWeight : TaskStatus × Int → Nat
  | (TaskStatus.pending, _) => 21
  | (TaskStatus.in_progress, p) => 1 + ((100 - p).toNat + 4) / 5
  | _ => 0

/-- Task weight, as a function of the task. -/
def taskWeight (t : Task) : Nat := pairWeight (statusProgress t)

/-- Termination measure of the store. -/
def storeMeasure (ts : List Task) : Nat := (ts.map taskWeight).sum

theorem storeMeasure_of_pairMap {l l2 : List Task}
    (h : l2.map statusProgress = l.map statusProgress) :
    storeMeasure l2 = storeMeasure l := by
  unfold storeMeasure
  have h2 := congrArg (fun xs => (List.map pairWeight xs).sum) h
  simpa [List.map_map, taskWeight, Function.comp] using h2

/-- Number of in-progress tasks in the store. -/
def countInProgress (ts : List Task) : Nat := ts.countP inProgressP

theorem countInProgress_of_statusMap {l l2 : List Task}
    (h : l2.map Task.status = l.map Task.status) :
    countInProgress l2 = countInProgress l := by
  have h2 := congrArg (List.countP (fun st => decide (st = TaskStatus.in_progress))) h
  rw [List.countP_map, List.countP_map] at h2
  exact h2

theorem findIndex_elem {α : Type} (p : α → Bool) (l : List α) (i : Nat)
    (h : findIndex p l = some i) :
    ∃ hlt : i < l.length, l[i]? = some l[i] ∧ p l[i] = true := by
  obtain ⟨hlt, hp⟩ := findIndex_some p l i h
  exact ⟨hlt, List.getElem?_eq_getElem hlt, by simpa [List.get_eq_getElem] using hp⟩

theorem le_sum_of_mem_nat {l : List Nat} {a : Nat} (h : a ∈ l) : a ≤ l.sum := by
  induction l with
  | nil => simp at h
  | cons b bs ih =>
    rcases List.mem_cons.mp h with rfl | h2
    · simp
    · have := ih h2
      simp
      omega

theorem taskWeight_pos (t : Task) (h : (inProgressP t || pendingP t) = true) :
    1 ≤ taskWeight t := by
  rcases Bool.or_eq_true_iff.mp h with h1 | h1
  · have hst : t.status = TaskStatus.in_progress := by simpa [inProgressP] using h1
    simp [taskWeight, statusProgress, pairWeight, hst]
  · have hst : t.status = TaskStatus.pending := by simpa [pendingP] using h1
    simp [taskWeight, statusProgress, pairWeight, hst]

theorem exists_active_of_not_all_completed (ts : List Task)
    (hnr : ∀ t ∈ ts, t.status ≠ TaskStatus.review)
    (hnall : ts.all completedP = false) :
    ∃ t ∈ ts, (inProgressP t || pendingP t) = true := by
  obtain ⟨t, ht, hc⟩ := List.all_eq_false.mp hnall
  refine ⟨t, ht, ?_⟩
  have hr := hnr t ht
  cases hst : t.status
  · simp [inProgressP, pendingP, hst]
  · simp [inProgressP, pendingP, hst]
  · exact absurd hst hr
  · exfalso
    exact hc (by simp [completedP, hst])

theorem progressUpdatedTask_progress (inc : Int) (t : Task) :
    (progressUpdatedTask inc t).progress = min (t.progress + inc) 100 := by
  unfold progressUpdatedTask
  split <;> rfl

theorem progressUpdatedTask_status (inc : Int) (t : Task) :
    (progressUpdatedTask inc t).status = TaskStatus.completed ∨
    (progressUpdatedTask inc t).status = t.status := by
  unfold progressUpdatedTask
  split
  · exact Or.inl rfl
  · exact Or.inr rfl

theorem tickUpdate_length (inc : Int) (now : Nat) (s : AppState) :
    (tickUpdate inc now s).tasks.length = s.tasks.length := by
  cases hfi : findIndex inProgressP s.tasks with
  | some i =>
    obtain ⟨hlt, hget, hp⟩ := findIndex_elem inProgressP s.tasks i hfi
    rw [tickUpdate_progress_eq inc now s i _ hfi hget]
    simp [List.length_set]
  | none =>
    cases hfp : findIndex pendingP s.tasks with
    | some i =>
      obtain ⟨hlt, hget, hp⟩ := findIndex_elem pendingP s.tasks i hfp
      rw [tickUpdate_promote_eq inc now s i _ hfi hfp hget]
      simp [List.length_set]
    | none =>
      cases hc : (s.tasks.all completedP && s.isRunning) with
      | true =>
        obtain ⟨hall, hrun⟩ := Bool.and_eq_true_iff.mp hc
        rw [tickUpdate_allDone_eq inc now s hfi hfp hall hrun]
      | false =>
        rw [tickUpdate_stuck_eq inc now s hfi hfp hc]

theorem tickUpdate_measure_decrease (inc : Int) (now : Nat) (s : AppState) (hinc : 5 ≤ inc)
    (hex : ∃ t ∈ s.tasks, (inProgressP t || pendingP t) = true) :
    storeMeasure (tickUpdate inc now s).tasks < storeMeasure s.tasks := by
  cases hfi : findIndex inProgressP s.tasks with
  | some i =>
    obtain ⟨hlt, hget, hp⟩ := findIndex_elem inProgressP s.tasks i hfi
    rw [tickUpdate_progress_eq inc now s i _ hfi hget]
    have hsum := sum_map_set taskWeight s.tasks i (progressUpdatedTask inc (s.tasks[i])) hlt
    have hst : (s.tasks[i]).status = TaskStatus.in_progress := by
      simpa [inProgressP] using hp
    have hw : taskWeight (progressUpdatedTask inc (s.tasks[i])) < taskWeight (s.tasks[i]) := by
      unfold progressUpdatedTask
      by_cases hc : 100 ≤ min ((s.tasks[i]).progress + inc) 100
      · simp only [hc, if_true]
        simp [taskWeight, statusProgress, pairWeight, hst]
      · simp only [hc, if_false]
        simp only [taskWeight, statusProgress, pairWeight, hst]
        omega
    simp only [List.get_eq_getElem] at hsum
    show storeMeasure (s.tasks.set i (progressUpdatedTask inc (s.tasks[i]))) < storeMeasure s.tasks
    unfold storeMeasure
    omega
  | none =>
    cases hfp : findIndex pendingP s.tasks with
    | some i =>
      obtain ⟨hlt, hget, hp⟩ := findIndex_elem pendingP s.tasks i hfp
      rw [tickUpdate_promote_eq inc now s i _ hfi hfp hget]
      have hsum := sum_map_set taskWeight s.tasks i (promotedTask (s.tasks[i])) hlt
      have hst : (s.tasks[i]).status = TaskStatus.pending := by
        simpa [pendingP] using hp
      have hwOld : taskWeight (s.tasks[i]) = 21 := by
        simp [taskWeight, statusProgress, pairWeight, hst]
      have hwNew : taskWeight (promotedTask (s.tasks[i])) = 20 := by
        simp [promotedTask, taskWeight, statusProgress, pairWeight]
      simp only [List.get_eq_getElem] at hsum
      show storeMeasure (s.tasks.set i (promotedTask (s.tasks[i]))) < storeMeasure s.tasks
      unfold storeMeasure
      omega
    | none =>
      exfalso
      obtain ⟨t, ht, hpt⟩ := hex
      have h1 := findIndex_none inProgressP s.tasks hfi t ht
      have h2 := findIndex_none pendingP s.tasks hfp t ht
      rw [h1, h2] at hpt
      simp at hpt

theorem tickUpdate_countInProgress (inc : Int) (now : Nat) (s : AppState)
    (h : countInProgress s.tasks ≤ 1) :
    countInProgress (tickUpdate inc now s).tasks ≤ 1 := by
  cases hfi : findIndex inProgressP s.tasks with
  | some i =>
    obtain ⟨hlt, hget, hp⟩ := findIndex_elem inProgressP s.tasks i hfi
    rw [tickUpdate_progress_eq inc now s i _ hfi hget]
    have hsum := sum_map_set (fun t => if inProgressP t then 1 else 0) s.tasks i
      (progressUpdatedTask inc (s.tasks[i])) hlt
    simp only [List.get_eq_getElem] at hsum
    have hA := countP_eq_sum_map inProgressP (s.tasks.set i (progressUpdatedTask inc (s.tasks[i])))
    have hB := countP_eq_sum_map inProgressP s.tasks
    have hold : (if inProgressP (s.tasks[i]) then 1 else 0) = 1 := by simp [hp]
    have hnew : (if inProgressP (progressUpdatedTask inc (s.tasks[i])) then 1 else 0) ≤ 1 := by
      split <;> omega
    show countInProgress (s.tasks.set i (progressUpdatedTask inc (s.tasks[i]))) ≤ 1
    unfold countInProgress at h ⊢
    omega
  | none =>
    cases hfp : findIndex pendingP s.tasks with
    | some i =>
      obtain ⟨hlt, hget, hp⟩ := findIndex_elem pendingP s.tasks i hfp
      rw [tickUpdate_promote_eq inc now s i _ hfi hfp hget]
      have hzero : s.tasks.countP inProgressP = 0 :=
        List.countP_eq_zero.mpr (fun t ht => by simp [findIndex_none inProgressP s.tasks hfi t ht])
      have hsum := sum_map_set (fun t => if inProgressP t then 1 else 0) s.tasks i
        (promotedTask (s.tasks[i])) hlt
      simp only [List.get_eq_getElem] at hsum
      have hA := countP_eq_sum_map inProgressP (s.tasks.set i (promotedTask (s.tasks[i])))
      have hB := countP_eq_sum_map inProgressP s.tasks
      have hold : (if inProgressP (s.tasks[i]) then 1 else 0) = 0 := by
        have := findIndex_none inProgressP s.tasks hfi (s.tasks[i]) (by
          exact List.getElem_mem hlt)
        simp [this]
      have hnew : (if inProgressP (promotedTask (s.tasks[i])) then 1 else 0) = 1 := by
        simp [promotedTask, inProgressP]
      show countInProgress (s.tasks.set i (promotedTask (s.tasks[i]))) ≤ 1
      unfold countInProgress
      omega
    | none =>
      cases hc : (s.tasks.all completedP && s.isRunning) with
      | true =>
        obtain ⟨hall, hrun⟩ := Bool.and_eq_true_iff.mp hc
        rw [tickUpdate_allDone_eq inc now s hfi hfp hall hrun]
        exact h
      | false =>
        rw [tickUpdate_stuck_eq inc now s hfi hfp hc]
        exact h

theorem tickUpdate_status_progress_pred (inc : Int) (now : Nat) (s : AppState)
    (P : TaskStatus → Int → Prop)
    (hP5 : P TaskStatus.in_progress 5)
    (hPmin : ∀ t ∈ s.tasks, t.status = TaskStatus.in_progress →
      P TaskStatus.in_progress (min (t.progress + inc) 100) ∧
      P TaskStatus.completed (min (t.progress + inc) 100))
    (h : ∀ t ∈ s.tasks, P t.status t.progress) :
    ∀ t ∈ (tickUpdate inc now s).tasks, P t.status t.progress := by
  cases hfi : findIndex inProgressP s.tasks with
  | some i =>
    obtain ⟨hlt, hget, hp⟩ := findIndex_elem inProgressP s.tasks i hfi
    rw [tickUpdate_progress_eq inc now s i _ hfi hget]
    intro t ht
    rcases List.mem_or_eq_of_mem_set ht with h2 | rfl
    · exact h t h2
    · have hst : (s.tasks[i]).status = TaskStatus.in_progress := by
        simpa [inProgressP] using hp
      have hmem : s.tasks[i] ∈ s.tasks := List.getElem_mem hlt
      obtain ⟨h1, h2⟩ := hPmin (s.tasks[i]) hmem hst
      unfold progressUpdatedTask
      split
      · simpa using h2
      · simpa [hst] using h1
  | none =>
    cases hfp : findIndex pendingP s.tasks with
    | some i =>
      obtain ⟨hlt, hget, hp⟩ := findIndex_elem pendingP s.tasks i hfp
      rw [tickUpdate_promote_eq inc now s i _ hfi hfp hget]
      intro t ht
      rcases List.mem_or_eq_of_mem_set ht with h2 | rfl
      · exact h t h2
      · simpa [promotedTask] using hP5
    | none =>
      cases hc : (s.tasks.all completedP && s.isRunning) with
      | true =>
        obtain ⟨hall, hrun⟩ := Bool.and_eq_true_iff.mp hc
        rw [tickUpdate_allDone_eq inc now s hfi hfp hall hrun]
        exact h
      | false =>
        rw [tickUpdate_stuck_eq inc now s hfi hfp hc]
        exact h

theorem tickUpdate_notAllDone_fields (inc : Int) (now : Nat) (s : AppState)
    (hex : ∃ t ∈ s.tasks, (inProgressP t || pendingP t) = true) :
    (tickUpdate inc now s).isRunning = s.isRunning ∧
    (tickUpdate inc now s).isRealtime = s.isRealtime ∧
    (tickUpdate inc now s).globalLogs = s.globalLogs := by
  cases hfi : findIndex inProgressP s.tasks with
  | some i =>
    obtain ⟨hlt, hget, hp⟩ := findIndex_elem inProgressP s.tasks i hfi
    rw [tickUpdate_progress_eq inc now s i _ hfi hget]
    exact ⟨rfl, rfl, rfl⟩
  | none =>
    cases hfp : findIndex pendingP s.tasks with
    | some i =>
      obtain ⟨hlt, hget, hp⟩ := findIndex_elem pendingP s.tasks i hfp
      rw [tickUpdate_promote_eq inc now s i _ hfi hfp hget]
      exact ⟨rfl, rfl, rfl⟩
    | none =>
      exfalso
      obtain ⟨t, ht, hpt⟩ := hex
      have h1 := findIndex_none inProgressP s.tasks hfi t ht
      have h2 := findIndex_none pendingP s.tasks hfp t ht
      rw [h1, h2] at hpt
      simp at hpt

/-- When every captured task is completed, the post-await application is
the identity: the captured active task is either absent or no longer in
progress. -/
theorem applyTaskLog_completed_noop (ct : List Task) (ca : Option String) (msg : String)
    (now : Nat) (s : AppState) (hall : ct.all completedP = true) :
    applyTaskLog ct ca msg now s = s := by
  unfold applyTaskLog
  split
  · rfl
  · split
    · rfl
    next t hfind =>
      split
      next hst =>
        exfalso
        have hmem := List.mem_of_find?_eq_some hfind
        have := List.all_eq_true.mp hall t hmem
        rw [show t.status = TaskStatus.completed from by simpa [completedP] using this] at hst
        exact absurd hst (by simp)
      · rfl

theorem applyTaskLog_pred (ct : List Task) (ca : Option String) (msg : String) (now : Nat)
    (s : AppState) (P : TaskStatus → Int → Prop)
    (h : ∀ t ∈ s.tasks, P t.status t.progress) :
    ∀ t ∈ (applyTaskLog ct ca msg now s).tasks, P t.status t.progress := by
  intro t ht
  obtain ⟨u, hu, he⟩ := mem_map_eq_transfer statusProgress
    (applyTaskLog_fields ct ca msg now s).2.2.2.1 t ht
  have h1 : t.status = u.status := congrArg Prod.fst he
  have h2 : t.progress = u.progress := congrArg Prod.snd he
  rw [h1, h2]
  exact h u hu

theorem effectRun_tasks (s : AppState) : (effectRun s).tasks = s.tasks := by
  unfold effectRun
  repeat' split
  all_goals rfl

theorem effectRun_globalLogs (s : AppState) : (effectRun s).globalLogs = s.globalLogs := by
  unfold effectRun
  repeat' split
  all_goals rfl

theorem effectRun_noStop (s : AppState) (hrun : s.isRunning = true) (hrt : s.isRealtime = false)
    (hall : s.tasks.all completedP = false) : effectRun s = s := by
  simp [effectRun, hrun, hrt, hall]

theorem effectRun_stop (s : AppState) (hrun : s.isRunning = true) (hrt : s.isRealtime = false)
    (hall : s.tasks.all completedP = true) (hlen : 0 < s.tasks.length) :
    effectRun s = { s with isRunning := false } := by
  simp [effectRun, hrun, hrt, hall, hlen]

theorem effectRun_not_running (s : AppState) (h : s.isRunning = false) :
    effectRun s = { s with activeTaskId := none } := by
  simp [effectRun, h]

theorem effectRun_stop_isRunning (s : AppState) (hrun : s.isRunning = true)
    (hrt : s.isRealtime = false) (hall : s.tasks.all completedP = true)
    (hlen : 0 < s.tasks.length) : (effectRun s).isRunning = false := by
  simp [effectRun, hrun, hrt, hall, hlen]

theorem effectRun_isRunning_false (s : AppState) (h : s.isRunning = false) :
    (effectRun s).isRunning = false := by
  simp [effectRun, h]

theorem step_guard_false (inc : Int) (msg : String) (now : Nat) (s : AppState)
    (h : (s.isRunning && !s.isRealtime &&
      !(s.tasks.all completedP && decide (0 < s.tasks.length))) = false) :
    step inc msg now s = s := by
  unfold step
  rw [h]
  simp

theorem step_guard_true (inc : Int) (msg : String) (now : Nat) (s : AppState)
    (h : (s.isRunning && !s.isRealtime &&
      !(s.tasks.all completedP && decide (0 < s.tasks.length))) = true) :
    step inc msg now s =
      effectRun (applyTaskLog s.tasks s.activeTaskId msg now (effectRun (tickUpdate inc now s))) := by
  unfold step
  rw [h]
  simp

theorem step_active (inc : Int) (msg : String) (now : Nat) (s : AppState)
    (hrun : s.isRunning = true) (hrt : s.isRealtime = false)
    (hall : s.tasks.all completedP = false) :
    step inc msg now s =
      effectRun (applyTaskLog s.tasks s.activeTaskId msg now (effectRun (tickUpdate inc now s))) := by
  apply step_guard_true
  simp [hrun, hrt, hall]

theorem step_not_running (inc : Int) (msg : String) (now : Nat) (s : AppState)
    (h : s.isRunning = false) : step inc msg now s = s := by
  simp [step, h]

theorem stepsFrom_stable (incs : Nat → Int) (msgs : Nat → String) (k n : Nat) (s : AppState)
    (h : s.isRunning = false) : stepsFrom incs msgs k n s = s := by
  induction n generalizing k with
  | zero => rfl
  | succ n ih =>
    show stepsFrom incs msgs (k + 1) n (step (incs k) (msgs k) k s) = s
    rw [step_not_running _ _ _ _ h]
    exact ih (k + 1)

theorem stepsFrom_add (incs : Nat → Int) (msgs : Nat → String) (m : Nat) :
    ∀ (k n : Nat) (s : AppState),
      stepsFrom incs msgs k (m + n) s =
        stepsFrom incs msgs (k + m) n (stepsFrom incs msgs k m s) := by
  induction m with
  | zero => intro k n s; simp [stepsFrom]
  | succ m ih =>
    intro k n s
    have e1 : m + 1 + n = (m + n) + 1 := by omega
    rw [e1]
    show stepsFrom incs msgs (k + 1) (m + n) (step (incs k) (msgs k) k s) = _
    rw [ih (k + 1) n (step (incs k) (msgs k) k s)]
    have e2 : k + 1 + m = k + (m + 1) := by omega
    rw [e2]
    rfl

theorem all_map_comp {α β : Type} (f : α → β) (p : β → Bool) :
    ∀ l : List α, (l.map f).all p = l.all (fun a => p (f a)) := by
  intro l
  induction l with
  | nil => rfl
  | cons a as ih => simp [List.all_cons, ih]

theorem allCompleted_of_statusMap {l l2 : List Task}
    (h : l2.map Task.status = l.map Task.status) :
    l2.all completedP = l.all completedP := by
  have h2 := congrArg (fun xs => List.all xs (fun st => decide (st = TaskStatus.completed))) h
  simp only at h2
  rw [all_map_comp, all_map_comp] at h2
  exact h2

/-- Main termination induction for the faithful run model: from any
running, non-live, not yet entirely completed state with no review tasks
and no all-done log, at most `storeMeasure` further tick cycles reach the
terminal state — engine stopped by the effect early-return of lines
148-151 at the completing commit, every task completed, store size
unchanged, and still zero all-done entries: the stopping path never
reaches the updater all-done branch, which is the only writer of that
entry. -/
theorem run_reaches_stopped (incs : Nat → Int) (msgs : Nat → String)
    (hinc : ∀ i, 5 ≤ incs i) :
    ∀ (fuel k : Nat) (s : AppState),
      (∀ t ∈ s.tasks, t.status ≠ TaskStatus.review) →
      s.isRunning = true → s.isRealtime = false →
      s.tasks.all completedP = false →
      countAllDone s.globalLogs = 0 →
      storeMeasure s.tasks ≤ fuel →
      ∃ n, n ≤ fuel ∧
        ((stepsFrom incs msgs k n s).isRunning = false ∧
         (stepsFrom incs msgs k n s).tasks.all completedP = true ∧
         (stepsFrom incs msgs k n s).tasks.length = s.tasks.length ∧
         countAllDone (stepsFrom incs msgs k n s).globalLogs = 0) := by
  intro fuel
  induction fuel with
  | zero =>
    intro k s hnr hrun hrt hall hcnt hm
    exfalso
    obtain ⟨t, ht, hpt⟩ := exists_active_of_not_all_completed s.tasks hnr hall
    have h1 := taskWeight_pos t hpt
    have h2 : taskWeight t ≤ storeMeasure s.tasks :=
      le_sum_of_mem_nat (List.mem_map_of_mem taskWeight ht)
    omega
  | succ f ih =>
    intro k s hnr hrun hrt hall hcnt hm
    have hex := exists_active_of_not_all_completed s.tasks hnr hall
    have hstep : step (incs k) (msgs k) k s =
        effectRun (applyTaskLog s.tasks s.activeTaskId (msgs k) k
          (effectRun (tickUpdate (incs k) k s))) :=
      step_active _ _ _ _ hrun hrt hall
    obtain ⟨hb1, hb2, hb3⟩ := tickUpdate_notAllDone_fields (incs k) k s hex
    have hb1a : (tickUpdate (incs k) k s).isRunning = true := by rw [hb1]; exact hrun
    have hb2a : (tickUpdate (incs k) k s).isRealtime = false := by rw [hb2]; exact hrt
    have hblen : (tickUpdate (incs k) k s).tasks.length = s.tasks.length :=
      tickUpdate_length _ _ _
    have hpos : 0 < s.tasks.length := by
      obtain ⟨t, ht, _⟩ := hex
      cases hse : s.tasks with
      | nil => rw [hse] at ht; simp at ht
      | cons a l => simp [hse]
    cases hall1 : (tickUpdate (incs k) k s).tasks.all completedP with
    | true =>
      refine ⟨1, by omega, ?_⟩
      have hone : stepsFrom incs msgs k 1 s = step (incs k) (msgs k) k s := rfl
      rw [hone, hstep]
      obtain ⟨ha1, ha2, ha3, ha4, ha5⟩ := applyTaskLog_fields s.tasks s.activeTaskId (msgs k) k
        (effectRun (tickUpdate (incs k) k s))
      have hbrun : (effectRun (tickUpdate (incs k) k s)).isRunning = false :=
        effectRun_stop_isRunning _ hb1a hb2a hall1 (by rw [hblen]; exact hpos)
      have harun : (applyTaskLog s.tasks s.activeTaskId (msgs k) k
          (effectRun (tickUpdate (incs k) k s))).isRunning = false := by
        rw [ha1]; exact hbrun
      refine ⟨effectRun_isRunning_false _ harun, ?_, ?_, ?_⟩
      · rw [effectRun_tasks, allCompleted_of_statusMap (statusMap_of_pairMap ha4),
          effectRun_tasks]
        exact hall1
      · rw [effectRun_tasks, ha5, effectRun_tasks]
        exact hblen
      · rw [effectRun_globalLogs]
        apply applyTaskLog_countAllDone
        rw [effectRun_globalLogs, hb3]
        exact hcnt
    | false =>
      have he1 : effectRun (tickUpdate (incs k) k s) = tickUpdate (incs k) k s :=
        effectRun_noStop _ hb1a hb2a hall1
      obtain ⟨ha1, ha2, ha3, ha4, ha5⟩ :=
        applyTaskLog_fields s.tasks s.activeTaskId (msgs k) k (tickUpdate (incs k) k s)
      have hall2 : (applyTaskLog s.tasks s.activeTaskId (msgs k) k
          (tickUpdate (incs k) k s)).tasks.all completedP = false := by
        rw [allCompleted_of_statusMap (statusMap_of_pairMap ha4)]
        exact hall1
      have harun2 : (applyTaskLog s.tasks s.activeTaskId (msgs k) k
          (tickUpdate (incs k) k s)).isRunning = true := by
        rw [ha1]; exact hb1a
      have hart2 : (applyTaskLog s.tasks s.activeTaskId (msgs k) k
          (tickUpdate (incs k) k s)).isRealtime = false := by
        rw [ha2]; exact hb2a
      have he2 : effectRun (applyTaskLog s.tasks s.activeTaskId (msgs k) k
            (tickUpdate (incs k) k s)) =
          applyTaskLog s.tasks s.activeTaskId (msgs k) k (tickUpdate (incs k) k s) :=
        effectRun_noStop _ harun2 hart2 hall2
      have hstep3 : step (incs k) (msgs k) k s =
          applyTaskLog s.tasks s.activeTaskId (msgs k) k (tickUpdate (incs k) k s) := by
        rw [hstep, he1, he2]
      have hrun1 : (step (incs k) (msgs k) k s).isRunning = true := by
        rw [hstep3]; exact harun2
      have hrt1 : (step (incs k) (msgs k) k s).isRealtime = false := by
        rw [hstep3]; exact hart2
      have hall3 : (step (incs k) (msgs k) k s).tasks.all completedP = false := by
        rw [hstep3]; exact hall2
      have hcnt1 : countAllDone (step (incs k) (msgs k) k s).globalLogs = 0 := by
        rw [hstep3]
        apply applyTaskLog_countAllDone
        rw [hb3]; exact hcnt
      have hnr1 : ∀ t ∈ (step (incs k) (msgs k) k s).tasks, t.status ≠ TaskStatus.review := by
        rw [hstep3]
        have hmid := tickUpdate_status_progress_pred (incs k) k s
          (fun st _ => st ≠ TaskStatus.review) (by simp)
          (fun t ht hst => ⟨by simp, by simp⟩) hnr
        exact applyTaskLog_pred s.tasks s.activeTaskId (msgs k) k (tickUpdate (incs k) k s)
          (fun st _ => st ≠ TaskStatus.review) hmid
      have hm1 : storeMeasure (step (incs k) (msgs k) k s).tasks ≤ f := by
        have hdec := tickUpdate_measure_decrease (incs k) k s (hinc k) hex
        have heq : storeMeasure (step (incs k) (msgs k) k s).tasks =
            storeMeasure (tickUpdate (incs k) k s).tasks := by
          rw [hstep3]; exact storeMeasure_of_pairMap ha4
        omega
      have hlen1 : (step (incs k) (msgs k) k s).tasks.length = s.tasks.length := by
        rw [hstep3, ha5, tickUpdate_length]
      obtain ⟨n, hn, hd1, hd2, hd3, hd4⟩ :=
        ih (k + 1) (step (incs k) (msgs k) k s) hnr1 hrun1 hrt1 hall3 hcnt1 hm1
      refine ⟨n + 1, by omega, ?_, ?_, ?_, ?_⟩
      · exact hd1
      · exact hd2
      · show (stepsFrom incs msgs (k + 1) n (step (incs k) (msgs k) k s)).tasks.length = _
        rw [hd3, hlen1]
      · exact hd4

/-- C3 fails on the code: for every `N ≥ 1`, starting the engine in
simulating mode on a store of `N` pending tasks and ticking it without
external interference (increments drawn from the code range `[5,19]`)
does terminate with exactly `N` completed tasks and the engine stopped —
but with ZERO all-done log entries instead of exactly one, stably across
all further ticks.  After the tick whose updater completes the last task,
the effect re-runs (its dependency array includes `tasks`), takes the
early-return of lines 148-151 and stops the engine via
`setIsRunning(false)` with no log; the all-done emission of line 179 can
only run on a tick fired with the whole store already completed, and no
such tick ever fires for a non-empty store. -/
theorem engine_run_stops_without_allDone_log
    (N : Nat) (hN : 1 ≤ N) (ts : List Task) (incs : Nat → Int) (msgs : Nat → String)
    (hlen : ts.length = N) (hpend : ∀ t ∈ ts, t.status = TaskStatus.pending)
    (hinc : ∀ i, 5 ≤ incs i ∧ incs i ≤ 19) :
    ∃ n, ∀ m, n ≤ m →
      (runSim incs msgs m (initSim ts)).isRunning = false ∧
      ((runSim incs msgs m (initSim ts)).tasks.filter completedP).length = N ∧
      countAllDone (runSim incs msgs m (initSim ts)).globalLogs = 0 := by
  have hnr : ∀ t ∈ (initSim ts).tasks, t.status ≠ TaskStatus.review := by
    intro t ht h
    have hp := hpend t ht
    rw [hp] at h
    cases h
  have hcnt : countAllDone (initSim ts).globalLogs = 0 := by
    show countAllDone (addLog [] ⟨0, "Conductor simulation engine started.", "success"⟩) = 0
    decide
  have hall : (initSim ts).tasks.all completedP = false := by
    have hne : ts ≠ [] := by
      intro he
      rw [he] at hlen
      simp at hlen
      omega
    obtain ⟨a, l, rfl⟩ := List.exists_cons_of_ne_nil hne
    apply List.all_eq_false.mpr
    refine ⟨a, ?_, ?_⟩
    · show a ∈ a :: l
      simp
    · have hp := hpend a (by simp)
      simp [completedP, hp]
  obtain ⟨n, hn, hd1, hd2, hd3, hd4⟩ :=
    run_reaches_stopped incs msgs (fun i => (hinc i).1)
      (storeMeasure (initSim ts).tasks) 0 (initSim ts) hnr rfl rfl hall hcnt (le_refl _)
  refine ⟨n, ?_⟩
  intro m hm
  obtain ⟨d, rfl⟩ : ∃ d, m = n + d := ⟨m - n, by omega⟩
  have hsame : runSim incs msgs (n + d) (initSim ts) = stepsFrom incs msgs 0 n (initSim ts) := by
    rw [runSim, stepsFrom_add incs msgs n 0 d (initSim ts),
      stepsFrom_stable incs msgs (0 + n) d _ hd1]
  rw [hsame]
  refine ⟨hd1, ?_, hd4⟩
  rw [List.filter_eq_self.mpr (List.all_eq_true.mp hd2), hd3]
  exact hlen

theorem engine_run_stops_without_allDone_log_witness :
    ((1 : Nat) ≤ 1 ∧ ([demoTask "w"] : List Task).length = 1 ∧
      (∀ t ∈ ([demoTask "w"] : List Task), t.status = TaskStatus.pending) ∧
      (∀ i : Nat, 5 ≤ (fun _ : Nat => (5 : Int)) i ∧ (fun _ : Nat => (5 : Int)) i ≤ 19)) ∧
    (∃ n, ∀ m, n ≤ m →
      (runSim (fun _ : Nat => (5 : Int)) (fun _ : Nat => "working") m
        (initSim [demoTask "w"])).isRunning = false ∧
      ((runSim (fun _ : Nat => (5 : Int)) (fun _ : Nat => "working") m
        (initSim [demoTask "w"])).tasks.filter completedP).length = 1 ∧
      countAllDone (runSim (fun _ : Nat => (5 : Int)) (fun _ : Nat => "working") m
        (initSim [demoTask "w"])).globalLogs = 0) :=
  ⟨⟨le_refl 1, by decide, by decide, fun i => ⟨le_refl 5, by norm_num⟩⟩,
    engine_run_stops_without_allDone_log 1 (le_refl 1) [demoTask "w"]
      (fun _ : Nat => (5 : Int)) (fun _ : Nat => "working")
      (by decide) (by decide) (fun i => ⟨le_refl 5, by norm_num⟩)⟩

theorem step_progress_range (inc : Int) (msg : String) (now : Nat) (s : AppState)
    (hinc : 5 ≤ inc)
    (h : ∀ t ∈ s.tasks, 0 ≤ t.progress ∧ t.progress ≤ 100) :
    ∀ t ∈ (step inc msg now s).tasks, 0 ≤ t.progress ∧ t.progress ≤ 100 := by
  cases hguard : (s.isRunning && !s.isRealtime &&
      !(s.tasks.all completedP && decide (0 < s.tasks.length))) with
  | false =>
    rw [step_guard_false _ _ _ _ hguard]
    exact h
  | true =>
    rw [step_guard_true _ _ _ _ hguard, effectRun_tasks]
    apply applyTaskLog_pred _ _ _ _ _ (fun _ p => 0 ≤ p ∧ p ≤ 100)
    rw [effectRun_tasks]
    apply tickUpdate_status_progress_pred inc now s (fun _ p => 0 ≤ p ∧ p ≤ 100)
    · omega
    · intro t ht _
      have hb := h t ht
      omega
    · exact h

/-- C4: for every sequence of engine ticks starting from tasks whose
progress values lie in [0,100], every progress value after every tick
lies in [0,100]: the promotion transition seeds the positive value 5, the
per-tick increment is clamped so progress never exceeds 100, and with the
code increment range `[5,19]` no transition produces a negative value. -/
theorem progress_always_in_range
    (incs : Nat → Int) (msgs : Nat → String) (hinc : ∀ i, 5 ≤ incs i ∧ incs i ≤ 19) :
    ∀ (n k : Nat) (s : AppState),
      (∀ t ∈ s.tasks, 0 ≤ t.progress ∧ t.progress ≤ 100) →
      ∀ t ∈ (stepsFrom incs msgs k n s).tasks, 0 ≤ t.progress ∧ t.progress ≤ 100 := by
  intro n
  induction n with
  | zero => intro k s h0; exact h0
  | succ n ih =>
    intro k s h0
    exact ih (k + 1) (step (incs k) (msgs k) k s)
      (step_progress_range (incs k) (msgs k) k s (hinc k).1 h0)

theorem progress_always_in_range_witness :
    ((∀ i : Nat, 5 ≤ (fun _ : Nat => (5 : Int)) i ∧ (fun _ : Nat => (5 : Int)) i ≤ 19) ∧
      (∀ t ∈ (initSim threeTasks).tasks, 0 ≤ t.progress ∧ t.progress ≤ 100)) ∧
    (∀ t ∈ (stepsFrom (fun _ : Nat => (5 : Int)) (fun _ : Nat => "working") 0 3
        (initSim threeTasks)).tasks, 0 ≤ t.progress ∧ t.progress ≤ 100) :=
  ⟨⟨fun i => ⟨le_refl 5, by norm_num⟩, by decide⟩,
    progress_always_in_range (fun _ : Nat => (5 : Int)) (fun _ : Nat => "working")
      (fun i => ⟨le_refl 5, by norm_num⟩) 3 0 (initSim threeTasks) (by decide)⟩

theorem step_countInProgress (inc : Int) (msg : String) (now : Nat) (s : AppState)
    (h : countInProgress s.tasks ≤ 1) :
    countInProgress (step inc msg now s).tasks ≤ 1 := by
  cases hguard : (s.isRunning && !s.isRealtime &&
      !(s.tasks.all completedP && decide (0 < s.tasks.length))) with
  | false =>
    rw [step_guard_false _ _ _ _ hguard]
    exact h
  | true =>
    rw [step_guard_true _ _ _ _ hguard]
    have h2 := tickUpdate_countInProgress inc now s h
    have heq1 : countInProgress (effectRun (tickUpdate inc now s)).tasks =
        countInProgress (tickUpdate inc now s).tasks := by
      rw [effectRun_tasks]
    have heq2 := countInProgress_of_statusMap (statusMap_of_pairMap
      (applyTaskLog_fields s.tasks s.activeTaskId msg now
        (effectRun (tickUpdate inc now s))).2.2.2.1)
    have heq3 : countInProgress (effectRun (applyTaskLog s.tasks s.activeTaskId msg now
          (effectRun (tickUpdate inc now s)))).tasks =
        countInProgress (applyTaskLog s.tasks s.activeTaskId msg now
          (effectRun (tickUpdate inc now s))).tasks := by
      rw [effectRun_tasks]
    omega

/-- C5: every store reachable from a store with at most one in-progress
task using only engine tick transitions has at most one in-progress task:
a pending task is promoted only when no task is in progress, and the
completing transition retires the active task in the same step. -/
theorem at_most_one_in_progress_invariant (incs : Nat → Int) (msgs : Nat → String) :
    ∀ (n k : Nat) (s : AppState), countInProgress s.tasks ≤ 1 →
      countInProgress (stepsFrom incs msgs k n s).tasks ≤ 1 := by
  intro n
  induction n with
  | zero => intro k s h; exact h
  | succ n ih =>
    intro k s h
    exact ih (k + 1) (step (incs k) (msgs k) k s) (step_countInProgress (incs k) (msgs k) k s h)

theorem at_most_one_in_progress_invariant_witness :
    (countInProgress (initSim threeTasks).tasks ≤ 1) ∧
    countInProgress (stepsFrom (fun _ : Nat => (7 : Int)) (fun _ : Nat => "working") 0 4
      (initSim threeTasks)).tasks ≤ 1 :=
  ⟨by decide,
    at_most_one_in_progress_invariant (fun _ : Nat => (7 : Int)) (fun _ : Nat => "working")
      4 0 (initSim threeTasks) (by decide)⟩

/-- The index the updater selects: the first in-progress task if any,
otherwise the first pending task. -/
def selectedIndex (ts : List Task) : Option Nat :=
  match findIndex inProgressP ts with
  | some i => some i
  | none => findIndex pendingP ts

/-- C10: a single engine tick mutates at most one task: the store size is
preserved and every position other than the selected index (the first
in-progress task, or the first pending task when none is in progress) is
unchanged, in all its fields.  When no index is selected no task changes
at all. -/
theorem tick_mutates_at_most_one_task (inc : Int) (now : Nat) (s : AppState) (j : Nat)
    (hj : ∀ i, selectedIndex s.tasks = some i → j ≠ i) :
    (tickUpdate inc now s).tasks.length = s.tasks.length ∧
    (tickUpdate inc now s).tasks[j]? = s.tasks[j]? := by
  refine ⟨tickUpdate_length inc now s, ?_⟩
  cases hfi : findIndex inProgressP s.tasks with
  | some i =>
    obtain ⟨hlt, hget, hp⟩ := findIndex_elem inProgressP s.tasks i hfi
    rw [tickUpdate_progress_eq inc now s i _ hfi hget]
    have hne : j ≠ i := hj i (by simp [selectedIndex, hfi])
    show (s.tasks.set i (progressUpdatedTask inc (s.tasks[i])))[j]? = s.tasks[j]?
    exact List.getElem?_set_ne (by omega)
  | none =>
    cases hfp : findIndex pendingP s.tasks with
    | some i =>
      obtain ⟨hlt, hget, hp⟩ := findIndex_elem pendingP s.tasks i hfp
      rw [tickUpdate_promote_eq inc now s i _ hfi hfp hget]
      have hne : j ≠ i := hj i (by simp [selectedIndex, hfi, hfp])
      show (s.tasks.set i (promotedTask (s.tasks[i])))[j]? = s.tasks[j]?
      exact List.getElem?_set_ne (by omega)
    | none =>
      cases hc : (s.tasks.all completedP && s.isRunning) with
      | true =>
        obtain ⟨hall, hrun⟩ := Bool.and_eq_true_iff.mp hc
        rw [tickUpdate_allDone_eq inc now s hfi hfp hall hrun]
      | false =>
        rw [tickUpdate_stuck_eq inc now s hfi hfp hc]

theorem tick_mutates_at_most_one_task_witness :
    (tickUpdate 7 0 (initSim threeTasks)).tasks.length = (initSim threeTasks).tasks.length ∧
    (tickUpdate 7 0 (initSim threeTasks)).tasks[1]? = (initSim threeTasks).tasks[1]? :=
  tick_mutates_at_most_one_task 7 0 (initSim threeTasks) 1
    (fun i hi => by
      have h0 : selectedIndex (initSim threeTasks).tasks = some 0 := by decide
      rw [h0] at hi
      have : i = 0 := (Option.some.inj hi).symm
      omega)

end Conductor
